import Mathlib

set_option maxRecDepth 100000
set_option exponentiation.threshold 2048
set_option autoImplicit false

/-!
Shallow embedding of `src/shamir_solver.js` (class `ShamirSecretSharing`).

The JavaScript code computes with IEEE-754 binary64 numbers. We model a JS
number as `JsNum`: NaN, signed infinity, or a finite value carried as an
exact rational. Every finite arithmetic result is passed through `rnd`,
round-to-nearest-even at 53 significand bits (subnormal granularity below
2^(-1022), overflow to infinity at 2^1024), which is exactly the binary64
rounding of the exact rational result, as ECMAScript prescribes for
`+`, `-`, `*`, `/`. Negative zero is identified with zero: no claim below
distinguishes them. Number-to-string conversion is abstracted by a simple
decimal printer (`jsNumToString`); no claim depends on its exact format.
-/

/-- Fuel-driven bit length of a natural number: `bitLenAux fuel n` is the
number of binary digits of `n`, provided `fuel ≥ log2 n + 1`. -/
def bitLenAux : Nat → Nat → Nat
  | 0, _ => 0
  | fuel+1, n => if n = 0 then 0 else bitLenAux fuel (n / 2) + 1

/-- Bit length of `n` (`0` for `0`, `⌊log2 n⌋ + 1` otherwise). The fuel
bound `4200` bits comfortably covers every magnitude arising from binary64
values and their products in this development. -/
def bitLen (n : Nat) : Nat := bitLenAux 4200 n

/-- Integer power of two as a rational, for possibly negative exponents. -/
def pow2 (e : ℤ) : ℚ :=
  if 0 ≤ e then ((2 ^ e.toNat : ℕ) : ℚ) else (1 : ℚ) / ((2 ^ (-e).toNat : ℕ) : ℚ)

/-- Floor of the base-2 logarithm of a positive rational (junk value `0` on
nonpositive input). -/
def log2floorQ (q : ℚ) : ℤ :=
  if q ≤ 0 then 0
  else
    let L : ℤ := (bitLen q.num.natAbs : ℤ) - (bitLen q.den : ℤ)
    if pow2 L ≤ q then L else L - 1

/-- Round a rational to the nearest integer, ties to even. -/
def rhe (x : ℚ) : ℤ :=
  let f := ⌊x⌋
  if x - (f : ℚ) < 1/2 then f
  else if (1 : ℚ)/2 < x - (f : ℚ) then f + 1
  else if f % 2 = 0 then f else f + 1

/-- Round a rational to the nearest IEEE-754 binary64 value (round to
nearest, ties to even), with subnormal granularity but without the overflow
cutoff, which callers apply separately. -/
def rnd (q : ℚ) : ℚ :=
  if q = 0 then 0
  else
    let e : ℤ := max (log2floorQ |q| - 52) (-1074)
    let m : ℤ := rhe (|q| / pow2 e)
    (if q < 0 then -(m : ℚ) else (m : ℚ)) * pow2 e

/-- A JavaScript number: NaN, an infinity (`inf true` is `-Infinity`), or a
finite value. -/
inductive JsNum where
  | nan : JsNum
  | inf : Bool → JsNum
  | fin : ℚ → JsNum
deriving DecidableEq

/-- Package a finite arithmetic result: binary64-round it and overflow to
the correctly signed infinity at magnitude `2^1024`. -/
def finOrOverflow (q : ℚ) : JsNum :=
  let v := rnd q
  if pow2 1024 ≤ v then JsNum.inf false
  else if v ≤ -pow2 1024 then JsNum.inf true
  else JsNum.fin v

/-- JS addition. -/
def JsNum.add : JsNum → JsNum → JsNum
  | nan, _ => nan
  | _, nan => nan
  | inf s, inf t => if s = t then inf s else nan
  | inf s, fin _ => inf s
  | fin _, inf s => inf s
  | fin a, fin b => finOrOverflow (a + b)

/-- JS negation. -/
def JsNum.neg : JsNum → JsNum
  | nan => nan
  | inf s => inf (!s)
  | fin q => fin (-q)

/-- JS subtraction (`x - y` is `x + (-y)`). -/
def JsNum.sub (a b : JsNum) : JsNum := a.add b.neg

/-- JS multiplication. -/
def JsNum.mul : JsNum → JsNum → JsNum
  | nan, _ => nan
  | _, nan => nan
  | inf s, inf t => inf (xor s t)
  | inf s, fin q => if q = 0 then nan else inf (xor s (decide (q < 0)))
  | fin q, inf s => if q = 0 then nan else inf (xor s (decide (q < 0)))
  | fin a, fin b => finOrOverflow (a * b)

/-- JS division (division by zero gives a signed infinity, `0/0` NaN). -/
def JsNum.div : JsNum → JsNum → JsNum
  | nan, _ => nan
  | _, nan => nan
  | inf _, inf _ => nan
  | inf s, fin q => inf (xor s (decide (q < 0)))
  | fin _, inf _ => fin 0
  | fin a, fin b =>
    if b = 0 then (if a = 0 then nan else inf (decide (a < 0)))
    else finOrOverflow (a / b)

/-- JS `Math.abs`. -/
def JsNum.abs : JsNum → JsNum
  | nan => nan
  | inf _ => inf false
  | fin q => fin |q|

/-- JS `<=` comparison (false whenever NaN is involved). -/
def JsNum.le : JsNum → JsNum → Bool
  | nan, _ => false
  | _, nan => false
  | inf true, inf _ => true
  | inf true, fin _ => true
  | inf false, inf s => !s
  | inf false, fin _ => false
  | fin _, inf s => !s
  | fin a, fin b => decide (a ≤ b)

/-- JS `<` comparison (false whenever NaN is involved). -/
def JsNum.lt : JsNum → JsNum → Bool
  | nan, _ => false
  | _, nan => false
  | inf true, inf s => !s
  | inf true, fin _ => true
  | inf false, _ => false
  | fin _, inf s => !s
  | fin a, fin b => decide (a < b)

/-- JS `Math.round`: nearest integer, ties toward positive infinity. -/
def JsNum.round : JsNum → JsNum
  | nan => nan
  | inf s => inf s
  | fin q => fin ((⌊q + 1/2⌋ : ℤ) : ℚ)

/-- True for NaN and the infinities. -/
def JsNum.nonFinite : JsNum → Bool
  | fin _ => false
  | _ => true

example : rnd 3 = 3 := by with_unfolding_all rfl
example : rnd (((9007199254740993 : ℤ) : ℚ)) = ((9007199254740992 : ℤ) : ℚ) := by
  with_unfolding_all rfl
example : rnd (1/3) = ((6004799503160661 : ℤ) : ℚ) / ((18014398509481984 : ℤ) : ℚ) := by
  with_unfolding_all rfl
example : JsNum.div (JsNum.fin (-1)) (JsNum.fin 0) = JsNum.inf true := by with_unfolding_all rfl
example : (JsNum.fin 2).mul (JsNum.fin (3/2)) = JsNum.fin 3 := by with_unfolding_all rfl

/-- Numeric value of a digit character as in ECMAScript `parseInt`
(`0`–`9`, then case-insensitive letters from 10 up to 35). -/
def digitVal (c : Char) : Option ℕ :=
  if '0' ≤ c ∧ c ≤ '9' then some (c.toNat - '0'.toNat)
  else if 'a' ≤ c ∧ c ≤ 'z' then some (c.toNat - 'a'.toNat + 10)
  else if 'A' ≤ c ∧ c ≤ 'Z' then some (c.toNat - 'A'.toNat + 10)
  else none

/-- Whitespace characters stripped by `parseInt` (ASCII whitespace and
no-break space; other Unicode space code points do not occur here). -/
def isJsWhite (c : Char) : Bool :=
  c = ' ' || c = '\t' || c = '\n' || c = '\r' || c.toNat = 11 || c.toNat = 12 || c.toNat = 160

/-- Convert an exact integer to the JS number it becomes: binary64-rounded,
overflowing to a signed infinity at `2^1024`. -/
def numToDouble (i : ℤ) : JsNum :=
  let v := rnd (i : ℚ)
  if pow2 1024 ≤ |v| then JsNum.inf (decide (i < 0)) else JsNum.fin v

/-- ECMAScript `ToInt32`: truncate toward zero, wrap modulo `2^32` into the
signed 32-bit range; NaN and the infinities map to `0`. -/
def toInt32 : JsNum → ℤ
  | JsNum.fin q =>
    let t : ℤ := if q < 0 then -⌊-q⌋ else ⌊q⌋
    let u := t % 4294967296
    if 2147483648 ≤ u then u - 4294967296 else u
  | _ => 0

/-- Fuel-driven decimal digit expansion for the number printer. -/
def natToStrAux : ℕ → ℕ → List Char → List Char
  | 0, _, acc => acc
  | fuel+1, n, acc =>
    if n < 10 then Nat.digitChar n :: acc
    else natToStrAux fuel (n / 10) (Nat.digitChar (n % 10) :: acc)

/-- Decimal printer for naturals (fuel covers all magnitudes used here). -/
def natToStr (n : ℕ) : String := String.mk (natToStrAux 400 n [])

/-- Decimal printer for integers. -/
def intToStr (i : ℤ) : String :=
  if i < 0 then "-" ++ natToStr i.natAbs else natToStr i.natAbs

/-- Simple printer for JS numbers, used only inside error message strings;
the exact ECMAScript number-to-string algorithm is abstracted. -/
def jsNumToString : JsNum → String
  | JsNum.nan => "NaN"
  | JsNum.inf true => "-Infinity"
  | JsNum.inf false => "Infinity"
  | JsNum.fin q =>
    if q.den = 1 then intToStr q.num else intToStr q.num ++ "/" ++ natToStr q.den

/-- Step of `parseInt`: does the (whitespace-stripped) input start with a
minus sign? -/
def parseIntIsNeg (cs : List Char) : Bool :=
  match cs with
  | '-' :: _ => true
  | _ => false

/-- Step of `parseInt`: drop one optional leading sign character. -/
def parseIntSign (cs : List Char) : List Char :=
  match cs with
  | '-' :: t => t
  | '+' :: t => t
  | _ => cs

/-- Step of `parseInt`: does the (sign-stripped) input begin with a
`0x`/`0X` hexadecimal prefix? -/
def parseIntHexPfx (cs : List Char) : Bool :=
  match cs with
  | '0' :: 'x' :: _ => true
  | '0' :: 'X' :: _ => true
  | _ => false

/-- Step of `parseInt`: is `c` a valid digit for radix `r`? -/
def parseIntIsDigit (r : ℤ) (c : Char) : Bool :=
  ((digitVal c).map (fun d => decide (d < r.toNat))).getD false

/-- Step of `parseInt`: the exact integer value of a digit list in radix
`r`, most significant first. -/
def digitsVal (r : ℤ) (ds : List Char) : ℕ :=
  ds.foldl (fun a c => a * r.toNat + ((digitVal c).getD 0)) 0

/-- ECMAScript `parseInt(string, radix)` where `radix` has already passed
through `ToInt32`: strip leading whitespace and an optional sign, handle the
`0x` prefix, read the longest prefix of valid digits in the working radix,
return NaN if there is none, and otherwise the digits' exact integer value
converted to a JS number. -/
def jsParseInt (s : String) (radix : ℤ) : JsNum :=
  let cs0 := s.data.dropWhile isJsWhite
  let neg : Bool := parseIntIsNeg cs0
  let cs1 := parseIntSign cs0
  if radix ≠ 0 ∧ (radix < 2 ∨ 36 < radix) then JsNum.nan
  else
    let strip : Bool := (decide (radix = 0) || decide (radix = 16)) && parseIntHexPfx cs1
    let r : ℤ := if strip then 16 else if radix = 0 then 10 else radix
    let cs2 := if strip then cs1.drop 2 else cs1
    let ds := cs2.takeWhile (parseIntIsDigit r)
    if ds = [] then JsNum.nan
    else numToDouble (if neg then -(digitsVal r ds : ℤ) else (digitsVal r ds : ℤ))

namespace ShamirSecretSharing

/-- `ShamirSecretSharing.baseToDecimal(value, base)` from
`src/shamir_solver.js`: reject bases outside `[2, 36]`, parse with JS
`parseInt(value, base)`, and reject only a NaN parse result. -/
def baseToDecimal (value : String) (base : JsNum) : Except String JsNum :=
  if base.lt (JsNum.fin 2) || (JsNum.fin 36).lt base then
    Except.error ("Invalid base: " ++ jsNumToString base ++ ". Base must be between 2 and 36.")
  else
    match jsParseInt value (toInt32 base) with
    | JsNum.nan =>
      Except.error ("Invalid value \"" ++ value ++ "\" for base " ++ jsNumToString base)
    | v => Except.ok v

end ShamirSecretSharing

example : ShamirSecretSharing.baseToDecimal "111" (JsNum.fin 2) = Except.ok (JsNum.fin 7) := by
  with_unfolding_all rfl
example : ShamirSecretSharing.baseToDecimal "213" (JsNum.fin 4) = Except.ok (JsNum.fin 39) := by
  with_unfolding_all rfl
example : ShamirSecretSharing.baseToDecimal "12x" (JsNum.fin 10) = Except.ok (JsNum.fin 12) := by
  with_unfolding_all rfl
example : ShamirSecretSharing.baseToDecimal " 12" (JsNum.fin 10) = Except.ok (JsNum.fin 12) := by
  with_unfolding_all rfl
example : ShamirSecretSharing.baseToDecimal "20000000000001" (JsNum.fin 16)
    = Except.ok (JsNum.fin ((9007199254740992 : ℤ) : ℚ)) := by
  with_unfolding_all rfl

/-- JS `Array.prototype.slice(0, e)`: negative `e` counts from the end of
the array, clamped at zero. -/
def jsSliceTo {α : Type} (l : List α) (e : ℤ) : List α :=
  if e < 0 then l.take (l.length - (-e).toNat) else l.take e.toNat

/-- JS `Array.prototype.map` where the callback also receives the element
index. -/
def mapWithIndex {α β : Type} (f : ℕ → α → β) : ℕ → List α → List β
  | _, [] => []
  | i, x :: t => f i x :: mapWithIndex f (i+1) t

namespace ShamirSecretSharing

/-- The doubly nested loop shared verbatim by `lagrangeInterpolation`
(evaluated at `x = 0`) and `validateSolution` (evaluated at `x = testX`):
`Σ_i yi * Π_{j≠i} (x - xj) / (xi - xj)` in JS floating point, accumulating
left to right exactly as the `for` loops do. -/
def interpolateAt (sel : List (JsNum × JsNum)) (x : JsNum) : JsNum :=
  (List.range sel.length).foldl
    (fun secret i =>
      let pi := sel.getD i (JsNum.nan, JsNum.nan)
      let li := (List.range sel.length).foldl
        (fun li j =>
          if i ≠ j then
            let pj := sel.getD j (JsNum.nan, JsNum.nan)
            li.mul ((x.sub pj.1).div (pi.1.sub pj.1))
          else li)
        (JsNum.fin 1)
      secret.add (pi.2.mul li))
    (JsNum.fin 0)

/-- `ShamirSecretSharing.lagrangeInterpolation(points, k)`: error when fewer
than `k` points are supplied, otherwise `Math.round` of the Lagrange value
at `x = 0` computed from the first `k` points. -/
def lagrangeInterpolation (points : List (JsNum × JsNum)) (k : ℤ) : Except String JsNum :=
  if (points.length : ℤ) < k then
    Except.error ("Need at least " ++ intToStr k ++ " points, but only "
      ++ natToStr points.length ++ " provided")
  else
    Except.ok ((interpolateAt (jsSliceTo points k) (JsNum.fin 0)).round)

/-- One row of the validation report produced by `validateSolution`. -/
structure ValidationEntry where
  point : JsNum × JsNum
  calculated : JsNum
  difference : JsNum
  valid : Bool
deriving DecidableEq

/-- The record returned by `validateSolution`. -/
structure ValidationReport where
  isValid : Bool
  results : List ValidationEntry
  tolerance : JsNum
deriving DecidableEq

/-- `ShamirSecretSharing.validateSolution(points, secret, k)`: re-evaluate
the polynomial defined by the first `k` points at every supplied point and
compare with tolerance `1e-10`. The `secret` argument is accepted but never
read, exactly as in the source. -/
def validateSolution (points : List (JsNum × JsNum)) (secret : JsNum) (k : ℤ) :
    ValidationReport :=
  let selectedPoints := jsSliceTo points k
  let tol := JsNum.fin (rnd (1 / ((10 ^ 10 : ℕ) : ℚ)))
  let validationResults := points.map (fun testPoint =>
    let calculatedY := interpolateAt selectedPoints testPoint.1
    let difference := (calculatedY.sub testPoint.2).abs
    { point := testPoint, calculated := calculatedY, difference := difference,
      valid := difference.le tol : ValidationEntry })
  { isValid := validationResults.all (fun r => r.valid), results := validationResults,
    tolerance := tol }

/-- One share entry of the JSON test case: base and value strings. -/
structure ShareEntry where
  base : String
  value : String

/-- The `keys` object; each field may be absent (JS `undefined`). -/
structure KeysRec where
  n : Option ℤ
  k : Option ℤ

/-- A JSON test case: the optional `keys` object plus a partial map from
numeric string keys (share indices) to share entries. -/
structure TestCase where
  keys : Option KeysRec
  entries : ℤ → Option ShareEntry

/-- JS truthiness of a possibly-missing integer (`undefined` and `0` are
falsy). -/
def truthyInt : Option ℤ → Bool
  | none => false
  | some v => decide (v ≠ 0)

/-- Body of the decoding loop of `parseTestCase` for one present entry:
`parseInt(entry.base)` (no radix), then `baseToDecimal`, wrapping any error
with the decoding-position prefix. -/
def decodePoint (i : ℤ) (e : ShareEntry) : Except String (JsNum × JsNum) :=
  match baseToDecimal e.value (jsParseInt e.base 0) with
  | Except.error msg => Except.error ("Error decoding point " ++ intToStr i ++ ": " ++ msg)
  | Except.ok y => Except.ok (JsNum.fin (i : ℚ), y)

/-- One iteration of the decoding loop of `parseTestCase`: skip an absent
entry, decode a present one and append the resulting point. -/
def parseStep (tc : TestCase) (acc : List (JsNum × JsNum)) (i : ℤ) :
    Except String (List (JsNum × JsNum)) :=
  match tc.entries i with
  | none => Except.ok acc
  | some e => (decodePoint i e).map (fun p => acc ++ [p])

/-- The index sequence of the decoding loop `for (let i = 1; i <= n; i++)`:
the integers `1, 2, ..., n` (empty when `n < 1`). -/
def idxRange (n : ℤ) : List ℤ :=
  (List.range n.toNat).map (fun m : ℕ => (m : ℤ) + 1)

/-- `ShamirSecretSharing.parseTestCase(testCase)`: check `keys.n`/`keys.k`
truthiness, scan indices `1..n` collecting decoded points of present
entries, and require at least `k` of them. -/
def parseTestCase (tc : TestCase) : Except String (List (JsNum × JsNum) × ℤ × ℤ) :=
  match tc.keys with
  | none => Except.error "Invalid test case format: missing keys.n or keys.k"
  | some ks =>
    if truthyInt ks.n && truthyInt ks.k then
      match (idxRange (ks.n.getD 0)).foldlM (parseStep tc) [] with
      | Except.error msg => Except.error msg
      | Except.ok points =>
        if (points.length : ℤ) < ks.k.getD 0 then
          Except.error ("Insufficient points: need " ++ intToStr (ks.k.getD 0) ++ ", found "
            ++ natToStr points.length)
        else Except.ok (points, ks.n.getD 0, ks.k.getD 0)
    else Except.error "Invalid test case format: missing keys.n or keys.k"

/-- The `parameters` record of a successful solve. -/
structure ParamsRec where
  n : ℤ
  k : ℤ
  degree : ℤ
deriving DecidableEq

/-- The record returned by `solve`. -/
structure SolveResult where
  success : Bool
  secret : Option JsNum
  points : Option (List (JsNum × JsNum))
  parameters : Option ParamsRec
  validation : Option ValidationReport
  error : Option String
deriving DecidableEq

/-- `ShamirSecretSharing.solve(testCase)`: parse, interpolate, validate;
any error raised along the way is caught and becomes the all-null failure
record with the error message. -/
def solve (testCase : TestCase) : SolveResult :=
  match parseTestCase testCase with
  | Except.error msg =>
    { success := false, secret := none, points := none, parameters := none,
      validation := none, error := some msg }
  | Except.ok (points, n, k) =>
    match lagrangeInterpolation points k with
    | Except.error msg =>
      { success := false, secret := none, points := none, parameters := none,
        validation := none, error := some msg }
    | Except.ok secret =>
      let validation := validateSolution points secret k
      { success := true, secret := some secret, points := some points,
        parameters := some { n := n, k := k, degree := k - 1 },
        validation := some validation, error := none }

/-- One element of the batch result: the solve record tagged with the index
of its test case. -/
structure IndexedResult where
  testCaseIndex : ℕ
  result : SolveResult
deriving DecidableEq

/-- `ShamirSecretSharing.solveMultiple(testCases)`: map `solve` over the
batch, tagging each record with its original index. -/
def solveMultiple (testCases : List TestCase) : List IndexedResult :=
  mapWithIndex (fun index testCase => { testCaseIndex := index, result := solve testCase })
    0 testCases

end ShamirSecretSharing

/-- The example test case `exampleTestCase1` bundled with the source file:
`n = 4`, `k = 3`, share entries at string keys 1, 2, 3 and 6. -/
def exampleTestCase1 : ShamirSecretSharing.TestCase :=
  { keys := some { n := some 4, k := some 3 },
    entries := fun i =>
      if i = 1 then some { base := "10", value := "4" }
      else if i = 2 then some { base := "2", value := "111" }
      else if i = 3 then some { base := "10", value := "12" }
      else if i = 6 then some { base := "4", value := "213" }
      else none }

example : (ShamirSecretSharing.solve exampleTestCase1).secret = some (JsNum.fin 3) := by
  with_unfolding_all rfl
example : (ShamirSecretSharing.solve exampleTestCase1).success = true := by
  with_unfolding_all rfl

/-- Variant of `exampleTestCase1` with an extra junk entry at string key 7,
beyond `keys.n = 4`; used to exhibit that entries above `n` are ignored. -/
def exampleTestCase1Junk7 : ShamirSecretSharing.TestCase :=
  { keys := some { n := some 4, k := some 3 },
    entries := fun i =>
      if i = 1 then some { base := "10", value := "4" }
      else if i = 2 then some { base := "2", value := "111" }
      else if i = 3 then some { base := "10", value := "12" }
      else if i = 6 then some { base := "4", value := "213" }
      else if i = 7 then some { base := "99", value := "zz" }
      else none }

/-- A test case with no `keys` object at all. -/
def missingKeysCase : ShamirSecretSharing.TestCase :=
  { keys := none, entries := fun _ => none }

/-- A test case whose declared `keys.k` is `0` (falsy in JS). -/
def zeroKCase : ShamirSecretSharing.TestCase :=
  { keys := some { n := some 4, k := some 0 }, entries := fun _ => none }

/-- A test case whose declared `keys.n` and `keys.k` are `-1`: nonzero and
hence truthy, though not a meaningful threshold. -/
def negativeKeysCase : ShamirSecretSharing.TestCase :=
  { keys := some { n := some (-1), k := some (-1) }, entries := fun _ => none }

/-- Modelled from the spec: the exact integer value of a digit string in
base `b` (§4.1 requires decoding "to an exact integer with no precision
loss"); `none` when some character is not a valid digit for base `b`. -/
def specExactDecode (s : String) (b : ℕ) : Option ℕ :=
  s.data.foldl
    (fun acc c =>
      match acc, digitVal c with
      | some a, some d => if d < b then some (a * b + d) else none
      | _, _ => none)
    (some 0)

/-- Modelled from the spec: Lagrange interpolation at `x = 0` over exact
rational arithmetic (§4.2), using the first `k` points as the basis. -/
def specLagrangeAt0 (pts : List (ℚ × ℚ)) (k : ℕ) : ℚ :=
  let sel := pts.take k
  (List.range sel.length).foldl
    (fun acc i =>
      let pi := sel.getD i (0, 0)
      let li := (List.range sel.length).foldl
        (fun li j =>
          if i ≠ j then
            let pj := sel.getD j (0, 0)
            li * ((0 - pj.1) / (pi.1 - pj.1))
          else li)
        1
      acc + pi.2 * li)
    0

/-- Statement-level predicate for the amended claim C3: after stripping
leading JS whitespace, one optional sign character, and (for base 16) an
optional `0x`/`0X` prefix, the remaining string does not start with a valid
digit for base `b` — exactly the condition under which `parseInt` yields
NaN and `baseToDecimal` reports an error. -/
def noLeadingDigit (b : ℤ) (s : String) : Bool :=
  let cs1 := parseIntSign (s.data.dropWhile isJsWhite)
  let strip : Bool := decide (b = 16) && parseIntHexPfx cs1
  let r : ℤ := if strip then 16 else b
  let cs2 := if strip then cs1.drop 2 else cs1
  match cs2 with
  | [] => true
  | c :: _ => !parseIntIsDigit r c

/-- Claim C1: on the bundled end-to-end example (n=4, k=3, shares at
indices 1, 2, 3, 6), `solve` succeeds with secret 3, but the validation
report covers only the points (1,4), (2,7), (3,12): the share at index 6
is never decoded (the parsing loop stops at `n = 4`), so no entry for the
point (6,39) exists, contrary to the claim. -/
theorem claim_c1_example_eval :
    (ShamirSecretSharing.solve exampleTestCase1).success = true ∧
    (ShamirSecretSharing.solve exampleTestCase1).secret = some (JsNum.fin 3) ∧
    ((ShamirSecretSharing.solve exampleTestCase1).validation.map
        (fun v => v.results.map (fun r => r.point)))
      = some [(JsNum.fin 1, JsNum.fin 4), (JsNum.fin 2, JsNum.fin 7),
          (JsNum.fin 3, JsNum.fin 12)] ∧
    ((ShamirSecretSharing.solve exampleTestCase1).validation.map
        (fun v => decide ((JsNum.fin 6, JsNum.fin 39) ∈ v.results.map (fun r => r.point))))
      = some false ∧
    ((ShamirSecretSharing.solve exampleTestCase1).validation.map (fun v => v.isValid))
      = some true := by
  refine ⟨?_, ?_, ?_, ?_, ?_⟩ <;> with_unfolding_all rfl

/-- Claim C2: `baseToDecimal` is not exact beyond 2^53. On the 14-digit
base-16 string for 2^53 + 1 it returns 2^53 (the nearest binary64 value),
while the exact integer value of the digits is 2^53 + 1. -/
theorem claim_c2_precision_loss :
    ShamirSecretSharing.baseToDecimal "20000000000001" (JsNum.fin 16)
      = Except.ok (JsNum.fin ((9007199254740992 : ℤ) : ℚ)) ∧
    specExactDecode "20000000000001" 16 = some 9007199254740993 ∧
    JsNum.fin ((9007199254740992 : ℤ) : ℚ) ≠ JsNum.fin ((9007199254740993 : ℤ) : ℚ) := by
  refine ⟨by with_unfolding_all rfl, by with_unfolding_all rfl, fun h => ?_⟩
  have h1 : ((9007199254740992 : ℤ) : ℚ) = ((9007199254740993 : ℤ) : ℚ) := by
    injection h
  have h2 : (9007199254740992 : ℤ) = 9007199254740993 := by exact_mod_cast h1
  omega

/-- Claim C3, counterexample: an invalid character after a valid leading
digit does not make `baseToDecimal` fail — `"12x"` in base 10 decodes to
12 — and leading whitespace is silently trimmed rather than rejected. -/
theorem claim_c3_counterexample :
    ShamirSecretSharing.baseToDecimal "12x" (JsNum.fin 10) = Except.ok (JsNum.fin 12) ∧
    ShamirSecretSharing.baseToDecimal " 12" (JsNum.fin 10) = Except.ok (JsNum.fin 12) :=
  ⟨by with_unfolding_all rfl, by with_unfolding_all rfl⟩

/-- Claim C4, counterexample: with two basis points sharing `x = 1`,
`lagrangeInterpolation` raises no error at all; the division by zero
produces `-Infinity`, which is returned as the "secret". -/
theorem claim_c4_counterexample :
    ShamirSecretSharing.lagrangeInterpolation
        [(JsNum.fin 1, JsNum.fin 4), (JsNum.fin 1, JsNum.fin 5)] 2
      = Except.ok (JsNum.inf true) := by
  with_unfolding_all rfl

/-- Claim C5: when the exact interpolation value at `x = 0` is not an
integer, the code silently rounds instead of reporting an inconsistency.
For the points (1,0), (2,0), (4,1) with k = 3 the exact value is 1/3, yet
`lagrangeInterpolation` returns success with `Math.round`ed secret 0. -/
theorem claim_c5_silent_rounding :
    specLagrangeAt0 [(1, 0), (2, 0), (4, 1)] 3 = 1/3 ∧
    ShamirSecretSharing.lagrangeInterpolation
        [(JsNum.fin 1, JsNum.fin 0), (JsNum.fin 2, JsNum.fin 0), (JsNum.fin 4, JsNum.fin 1)] 3
      = Except.ok (JsNum.fin 0) :=
  ⟨by with_unfolding_all rfl, by with_unfolding_all rfl⟩

/-- Claim C10, counterexample: `keys.n = keys.k = -1` passes the JS
truthiness check (`!(-1)` is false), and `solve` succeeds with parameter
`k = -1`, so `k ≥ 1` does not hold in every successful solve result. -/
theorem claim_c10_counterexample :
    (ShamirSecretSharing.solve negativeKeysCase).success = true ∧
    (ShamirSecretSharing.solve negativeKeysCase).secret = some (JsNum.fin 0) ∧
    (ShamirSecretSharing.solve negativeKeysCase).parameters
      = some { n := -1, k := -1, degree := -2 } := by
  refine ⟨?_, ?_, ?_⟩ <;> with_unfolding_all rfl

/-- Claim C9: `validateSolution` never reads its `secret` argument, so the
report is identical for any two secrets. -/
theorem claim_c9_validation_ignores_secret (points : List (JsNum × JsNum))
    (s1 s2 : JsNum) (k : ℤ) :
    ShamirSecretSharing.validateSolution points s1 k
      = ShamirSecretSharing.validateSolution points s2 k := rfl

theorem mapWithIndex_length {α β : Type} (f : ℕ → α → β) (s : ℕ) (l : List α) :
    (mapWithIndex f s l).length = l.length := by
  induction l generalizing s with
  | nil => rfl
  | cons x t ih => simp [mapWithIndex, ih]

theorem mapWithIndex_getElem? {α β : Type} (f : ℕ → α → β) (s i : ℕ) (l : List α) :
    (mapWithIndex f s l)[i]? = (l[i]?).map (f (s + i)) := by
  induction l generalizing s i with
  | nil => simp [mapWithIndex]
  | cons x t ih =>
    cases i with
    | zero => simp [mapWithIndex]
    | succ m =>
      have harith : s + 1 + m = s + (m + 1) := by omega
      simp only [mapWithIndex, List.getElem?_cons_succ, ih (s+1) m, harith]

/-- Claim C6: `solve` is total — every outcome is either a success record
or the all-null failure record carrying an error message — and
`solveMultiple` returns one result per input, in order, each tagged with
its index and depending only on its own test case. -/
theorem claim_c6_solve_never_throws :
    (∀ tc : ShamirSecretSharing.TestCase,
      (ShamirSecretSharing.solve tc).success = true ∨
      ∃ m, ShamirSecretSharing.solve tc =
        { success := false, secret := none, points := none, parameters := none,
          validation := none, error := some m }) ∧
    (∀ tcs : List ShamirSecretSharing.TestCase,
      (ShamirSecretSharing.solveMultiple tcs).length = tcs.length ∧
      ∀ i tc, tcs[i]? = some tc →
        (ShamirSecretSharing.solveMultiple tcs)[i]?
          = some ({ testCaseIndex := i, result := ShamirSecretSharing.solve tc } :
              ShamirSecretSharing.IndexedResult)) := by
  constructor
  · intro tc
    cases hp : ShamirSecretSharing.parseTestCase tc with
    | error msg => exact Or.inr ⟨msg, by simp [ShamirSecretSharing.solve, hp]⟩
    | ok triple =>
      obtain ⟨points, n, k⟩ := triple
      cases hl : ShamirSecretSharing.lagrangeInterpolation points k with
      | error msg => exact Or.inr ⟨msg, by simp [ShamirSecretSharing.solve, hp, hl]⟩
      | ok secret => exact Or.inl (by simp [ShamirSecretSharing.solve, hp, hl])
  · intro tcs
    refine ⟨mapWithIndex_length _ 0 tcs, fun i tc h => ?_⟩
    unfold ShamirSecretSharing.solveMultiple
    rw [mapWithIndex_getElem?, h]
    simp

/-- Witness for claim C6 at a concrete batch: the second entry of a batch
whose first test case is malformed is exactly the tagged solve of the
second test case. -/
theorem claim_c6_witness :
    ([missingKeysCase, exampleTestCase1] :
        List ShamirSecretSharing.TestCase)[1]? = some exampleTestCase1 ∧
    (ShamirSecretSharing.solveMultiple [missingKeysCase, exampleTestCase1])[1]?
      = some { testCaseIndex := 1, result := ShamirSecretSharing.solve exampleTestCase1 } :=
  ⟨rfl, (claim_c6_solve_never_throws.2 [missingKeysCase, exampleTestCase1]).2 1
    exampleTestCase1 rfl⟩

theorem JsNum.mul_nonFinite_right (a b : JsNum) (h : b.nonFinite = true) :
    (a.mul b).nonFinite = true := by
  cases a <;> cases b <;>
    first
      | rfl
      | exact Bool.noConfusion h
      | (simp only [JsNum.mul]; split <;> rfl)

theorem JsNum.mul_nonFinite_left (a b : JsNum) (h : a.nonFinite = true) :
    (a.mul b).nonFinite = true := by
  cases a <;> cases b <;>
    first
      | rfl
      | exact Bool.noConfusion h
      | (simp only [JsNum.mul]; split <;> rfl)

theorem JsNum.add_nonFinite_right (a b : JsNum) (h : b.nonFinite = true) :
    (a.add b).nonFinite = true := by
  cases a <;> cases b <;>
    first
      | rfl
      | exact Bool.noConfusion h
      | (simp only [JsNum.add]; split <;> rfl)

theorem JsNum.add_nonFinite_left (a b : JsNum) (h : a.nonFinite = true) :
    (a.add b).nonFinite = true := by
  cases a <;> cases b <;>
    first
      | rfl
      | exact Bool.noConfusion h
      | (simp only [JsNum.add]; split <;> rfl)

theorem JsNum.round_nonFinite (a : JsNum) (h : a.nonFinite = true) :
    a.round.nonFinite = true := by
  cases a <;>
    first
      | rfl
      | exact Bool.noConfusion h

theorem pow2_pos (e : ℤ) : 0 < pow2 e := by
  unfold pow2
  split <;> positivity

theorem JsNum.fin_sub_self (q : ℚ) : (JsNum.fin q).sub (JsNum.fin q) = JsNum.fin 0 := by
  show finOrOverflow (q + -q) = JsNum.fin 0
  rw [add_neg_cancel]
  unfold finOrOverflow
  have hr : rnd 0 = 0 := by simp [rnd]
  rw [hr, if_neg (not_le.mpr (pow2_pos 1024)), if_neg]
  simp only [not_le, Left.neg_neg_iff]
  exact pow2_pos 1024

theorem JsNum.div_sub_self_nonFinite (a x : JsNum) :
    (a.div (x.sub x)).nonFinite = true := by
  cases x with
  | nan => cases a <;> rfl
  | inf s => cases s <;> cases a <;> rfl
  | fin q =>
    rw [JsNum.fin_sub_self]
    cases a with
    | nan => rfl
    | inf s => rfl
    | fin b =>
      by_cases hb : b = 0
      · subst hb; rfl
      · simp [JsNum.div, hb, JsNum.nonFinite]

theorem foldl_nonFinite_preserve (f : JsNum → ℕ → JsNum)
    (hf : ∀ a m, a.nonFinite = true → (f a m).nonFinite = true) :
    ∀ (l : List ℕ) (acc : JsNum), acc.nonFinite = true →
      (l.foldl f acc).nonFinite = true := by
  intro l
  induction l with
  | nil => intro acc h; simpa using h
  | cons m t ih =>
    intro acc h
    simp only [List.foldl_cons]
    exact ih _ (hf _ _ h)

theorem foldl_nonFinite_of_mem (f : JsNum → ℕ → JsNum) (j : ℕ)
    (hbad : ∀ a, (f a j).nonFinite = true)
    (hf : ∀ a m, a.nonFinite = true → (f a m).nonFinite = true) :
    ∀ (l : List ℕ) (acc : JsNum), j ∈ l → (l.foldl f acc).nonFinite = true := by
  intro l
  induction l with
  | nil => intro acc h; simp at h
  | cons m t ih =>
    intro acc hmem
    simp only [List.foldl_cons]
    rcases List.mem_cons.mp hmem with h1 | h2
    · subst h1; exact foldl_nonFinite_preserve f hf t _ (hbad acc)
    · exact ih _ h2

theorem getD_take {α : Type} (l : List α) (t i : ℕ) (d : α) (h : i < t) :
    (l.take t).getD i d = l.getD i d := by
  simp [List.getD_eq_getElem?_getD, List.getElem?_take, h]

/-- Claim C4, amended: when two of the first `k` basis points share the
same x-coordinate (and at least `k` points are supplied),
`lagrangeInterpolation` does not fail at all — it returns success, and the
division by zero makes the returned value non-finite (NaN or a signed
infinity). No `DuplicateAbscissaError` exists in the code. -/
theorem claim_c4_amended (pts : List (JsNum × JsNum)) (k : ℤ) (i j : ℕ)
    (hij : i ≠ j) (hik : (i : ℤ) < k) (hjk : (j : ℤ) < k)
    (hlen : ¬((pts.length : ℤ) < k))
    (hx : (pts.getD i (JsNum.nan, JsNum.nan)).1 = (pts.getD j (JsNum.nan, JsNum.nan)).1) :
    ∃ v, ShamirSecretSharing.lagrangeInterpolation pts k = Except.ok v ∧
      v.nonFinite = true := by
  have hk0 : ¬(k < 0) := by omega
  have hsel : jsSliceTo pts k = pts.take k.toNat := by
    simp [jsSliceTo, hk0]
  have hkl : k.toNat ≤ pts.length := by omega
  have hlsel : (jsSliceTo pts k).length = k.toNat := by
    rw [hsel, List.length_take]
    omega
  have hi : i < (jsSliceTo pts k).length := by omega
  have hj : j < (jsSliceTo pts k).length := by omega
  have hgi : (jsSliceTo pts k).getD i (JsNum.nan, JsNum.nan)
      = pts.getD i (JsNum.nan, JsNum.nan) := by
    rw [hsel]; exact getD_take _ _ _ _ (by omega)
  have hgj : (jsSliceTo pts k).getD j (JsNum.nan, JsNum.nan)
      = pts.getD j (JsNum.nan, JsNum.nan) := by
    rw [hsel]; exact getD_take _ _ _ _ (by omega)
  refine ⟨(ShamirSecretSharing.interpolateAt (jsSliceTo pts k) (JsNum.fin 0)).round,
    by simp [ShamirSecretSharing.lagrangeInterpolation, hlen], ?_⟩
  apply JsNum.round_nonFinite
  unfold ShamirSecretSharing.interpolateAt
  apply foldl_nonFinite_of_mem _ i
  · intro a
    apply JsNum.add_nonFinite_right
    apply JsNum.mul_nonFinite_right
    apply foldl_nonFinite_of_mem _ j
    · intro b
      rw [if_pos hij]
      apply JsNum.mul_nonFinite_right
      rw [hgi, hgj, hx, ← hgj]
      apply JsNum.div_sub_self_nonFinite
    · intro b m hb
      split
      · exact JsNum.mul_nonFinite_left _ _ hb
      · exact hb
    · simp only [List.mem_range]
      omega
  · intro a m ha
    exact JsNum.add_nonFinite_left _ _ ha
  · simp only [List.mem_range]
    omega

/-- Witness for the amended claim C4 at the concrete duplicate-abscissa
input `[(1,4), (1,5)]` with `k = 2`. -/
theorem claim_c4_amended_witness :
    ∃ v, ShamirSecretSharing.lagrangeInterpolation
        [(JsNum.fin 1, JsNum.fin 4), (JsNum.fin 1, JsNum.fin 5)] 2 = Except.ok v ∧
      v.nonFinite = true :=
  claim_c4_amended [(JsNum.fin 1, JsNum.fin 4), (JsNum.fin 1, JsNum.fin 5)] 2 0 1
    (by decide) (by decide) (by decide) (by decide) rfl

theorem JsNum.mul_one_fin (q : ℚ) (hrep : rnd q = q) (hsmall : |q| < pow2 1024) :
    (JsNum.fin q).mul (JsNum.fin 1) = JsNum.fin q := by
  show finOrOverflow (q * 1) = JsNum.fin q
  rw [mul_one]
  unfold finOrOverflow
  rw [hrep, if_neg (not_le.mpr (abs_lt.mp hsmall).2),
    if_neg (not_le.mpr (by have := (abs_lt.mp hsmall).1; linarith))]

theorem JsNum.zero_add_fin (q : ℚ) (hrep : rnd q = q) (hsmall : |q| < pow2 1024) :
    (JsNum.fin 0).add (JsNum.fin q) = JsNum.fin q := by
  show finOrOverflow (0 + q) = JsNum.fin q
  rw [zero_add]
  unfold finOrOverflow
  rw [hrep, if_neg (not_le.mpr (abs_lt.mp hsmall).2),
    if_neg (not_le.mpr (by have := (abs_lt.mp hsmall).1; linarith))]

theorem JsNum.round_int_fin (q : ℚ) (hden : q.den = 1) :
    (JsNum.fin q).round = JsNum.fin q := by
  have hq : (q.num : ℚ) = q := by
    have h := Rat.num_div_den q
    rw [hden] at h
    simpa using h
  show JsNum.fin ((⌊q + 1/2⌋ : ℤ) : ℚ) = JsNum.fin q
  rw [← hq, Int.floor_int_add]
  norm_num

/-- Claim C7: with `k = 1` and a non-empty point list whose first point has
a finite integral binary64 y-value, `lagrangeInterpolation` returns exactly
that y-value (the degree-0 polynomial case). -/
theorem claim_c7_k1 (pts : List (JsNum × JsNum)) (x : JsNum) (q : ℚ)
    (hhead : pts.head? = some (x, JsNum.fin q)) (hden : q.den = 1)
    (hrep : rnd q = q) (hsmall : |q| < pow2 1024) :
    ShamirSecretSharing.lagrangeInterpolation pts 1 = Except.ok (JsNum.fin q) := by
  cases pts with
  | nil => simp at hhead
  | cons p rest =>
    have hp : p = (x, JsNum.fin q) := by simpa using hhead
    subst hp
    have hlen : ¬((((x, JsNum.fin q) :: rest).length : ℤ) < 1) := by
      simp only [List.length_cons]
      push_cast
      omega
    have hsel : jsSliceTo ((x, JsNum.fin q) :: rest) 1 = [(x, JsNum.fin q)] := by
      simp [jsSliceTo]
    unfold ShamirSecretSharing.lagrangeInterpolation
    rw [if_neg hlen, hsel]
    have hr1 : List.range 1 = [0] := rfl
    have hinterp : ShamirSecretSharing.interpolateAt [(x, JsNum.fin q)] (JsNum.fin 0)
        = JsNum.fin q := by
      unfold ShamirSecretSharing.interpolateAt
      simp only [List.length_singleton, hr1, List.foldl_cons, List.foldl_nil,
        List.getD_cons_zero]
      rw [if_neg (not_not_intro rfl), JsNum.mul_one_fin q hrep hsmall,
        JsNum.zero_add_fin q hrep hsmall]
    rw [hinterp, JsNum.round_int_fin q hden]

/-- Witness for claim C7 at the single concrete point `(5, 7)`. -/
theorem claim_c7_k1_witness :
    ShamirSecretSharing.lagrangeInterpolation [(JsNum.fin 5, JsNum.fin 7)] 1
      = Except.ok (JsNum.fin 7) :=
  claim_c7_k1 [(JsNum.fin 5, JsNum.fin 7)] (JsNum.fin 5) 7 rfl (by with_unfolding_all rfl)
    (by with_unfolding_all rfl)
    (by
      rw [abs_of_nonneg (by norm_num), pow2, if_pos (by norm_num)]
      show (7 : ℚ) < ((2 ^ 1024 : ℕ) : ℚ)
      norm_num)

theorem parseStep_ok_cases (tc : ShamirSecretSharing.TestCase)
    (acc acc' : List (JsNum × JsNum)) (i : ℤ)
    (h : ShamirSecretSharing.parseStep tc acc i = Except.ok acc') :
    acc' = acc ∨ ∃ y, acc' = acc ++ [(JsNum.fin (i : ℚ), y)] ∧ (tc.entries i).isSome = true := by
  unfold ShamirSecretSharing.parseStep at h
  split at h
  · left
    injection h with h
    exact h.symm
  · rename_i e he
    unfold ShamirSecretSharing.decodePoint at h
    split at h
    · exact Except.noConfusion h
    · rename_i y hb
      right
      refine ⟨y, ?_, by rw [he]; rfl⟩
      injection h with h
      exact h.symm

theorem parse_fold_bounds (tc : ShamirSecretSharing.TestCase) (n : ℤ) :
    ∀ (l : List ℤ) (acc pts : List (JsNum × JsNum)),
      (∀ i ∈ l, 1 ≤ i ∧ i ≤ n) →
      (∀ p ∈ acc, ∃ i : ℤ, 1 ≤ i ∧ i ≤ n ∧ p.1 = JsNum.fin (i : ℚ) ∧
        (tc.entries i).isSome = true) →
      l.foldlM (ShamirSecretSharing.parseStep tc) acc = Except.ok pts →
      ∀ p ∈ pts, ∃ i : ℤ, 1 ≤ i ∧ i ≤ n ∧ p.1 = JsNum.fin (i : ℚ) ∧
        (tc.entries i).isSome = true := by
  intro l
  induction l with
  | nil =>
    intro acc pts _ hacc h
    have : acc = pts := by
      rw [List.foldlM_nil] at h
      injection h
    subst this
    exact hacc
  | cons a t ih =>
    intro acc pts hl hacc h
    rw [List.foldlM_cons] at h
    cases hs : ShamirSecretSharing.parseStep tc acc a with
    | error m =>
      rw [hs] at h
      exact Except.noConfusion h
    | ok acc' =>
      rw [hs] at h
      refine ih acc' pts (fun i hi => hl i (List.mem_cons_of_mem _ hi)) ?_ h
      rcases parseStep_ok_cases tc acc acc' a hs with rfl | ⟨y, rfl, hsome⟩
      · exact hacc
      · intro p hp
        rcases List.mem_append.mp hp with hp1 | hp2
        · exact hacc p hp1
        · have hpa : p = (JsNum.fin (a : ℚ), y) := by simpa using hp2
          subst hpa
          exact ⟨a, (hl a (List.mem_cons_self _ _)).1, (hl a (List.mem_cons_self _ _)).2,
            rfl, hsome⟩

theorem parse_fold_congr (tc tc' : ShamirSecretSharing.TestCase) :
    ∀ (l : List ℤ) (acc : List (JsNum × JsNum)),
      (∀ i ∈ l, tc.entries i = tc'.entries i) →
      l.foldlM (ShamirSecretSharing.parseStep tc) acc
        = l.foldlM (ShamirSecretSharing.parseStep tc') acc := by
  intro l
  induction l with
  | nil => intro acc _; rfl
  | cons a t ih =>
    intro acc hag
    rw [List.foldlM_cons, List.foldlM_cons]
    have hsa : ShamirSecretSharing.parseStep tc acc a
        = ShamirSecretSharing.parseStep tc' acc a := by
      unfold ShamirSecretSharing.parseStep
      rw [hag a (List.mem_cons_self a t)]
    rw [hsa]
    cases ShamirSecretSharing.parseStep tc' acc a with
    | error m => rfl
    | ok acc' => exact ih acc' (fun i hi => hag i (List.mem_cons_of_mem _ hi))

theorem mem_idxRange_bounds (n i : ℤ) (hi : i ∈ ShamirSecretSharing.idxRange n) :
    1 ≤ i ∧ i ≤ n := by
  unfold ShamirSecretSharing.idxRange at hi
  simp only [List.mem_map, List.mem_range] at hi
  obtain ⟨m, hm, rfl⟩ := hi
  omega

theorem solve_congr_of_parse (tc tc' : ShamirSecretSharing.TestCase)
    (h : ShamirSecretSharing.parseTestCase tc = ShamirSecretSharing.parseTestCase tc') :
    ShamirSecretSharing.solve tc = ShamirSecretSharing.solve tc' := by
  unfold ShamirSecretSharing.solve
  rw [h]

/-- Claim C8: `parseTestCase` scans only the string keys `1 .. keys.n`:
every produced point has `x = i` for some index `1 ≤ i ≤ n` with a present
entry, and two test cases agreeing on `keys` and on all entries with index
in `[1, n]` parse and solve identically — entries above `keys.n` are never
decoded, never included, and never validated. -/
theorem claim_c8_scan_bounds :
    (∀ (tc : ShamirSecretSharing.TestCase) pts n k,
      ShamirSecretSharing.parseTestCase tc = Except.ok (pts, n, k) →
      ∀ p ∈ pts, ∃ i : ℤ, 1 ≤ i ∧ i ≤ n ∧ p.1 = JsNum.fin (i : ℚ) ∧
        (tc.entries i).isSome = true) ∧
    (∀ tc tc' : ShamirSecretSharing.TestCase, tc.keys = tc'.keys →
      (∀ ks, tc.keys = some ks → ∀ i : ℤ, 1 ≤ i → i ≤ ks.n.getD 0 →
        tc.entries i = tc'.entries i) →
      ShamirSecretSharing.parseTestCase tc = ShamirSecretSharing.parseTestCase tc' ∧
      ShamirSecretSharing.solve tc = ShamirSecretSharing.solve tc') := by
  constructor
  · intro tc pts n k hok p hp
    unfold ShamirSecretSharing.parseTestCase at hok
    split at hok
    · exact Except.noConfusion hok
    · rename_i ks hk
      split at hok
      · split at hok
        · exact Except.noConfusion hok
        · rename_i points hf
          split at hok
          · exact Except.noConfusion hok
          · injection hok with hok
            have hpts : points = pts := congrArg Prod.fst hok
            have hn : ks.n.getD 0 = n := congrArg (fun t => t.2.1) hok
            subst hpts
            rw [← hn]
            exact parse_fold_bounds tc (ks.n.getD 0) _ [] points
              (fun i hi => mem_idxRange_bounds _ i hi) (by intro p hp; simp at hp) hf p hp
      · exact Except.noConfusion hok
  · intro tc tc' hkeys hag
    have hparse : ShamirSecretSharing.parseTestCase tc
        = ShamirSecretSharing.parseTestCase tc' := by
      obtain ⟨tck, tce⟩ := tc
      obtain ⟨tck', tce'⟩ := tc'
      change tck = tck' at hkeys
      subst hkeys
      cases tck with
      | none => rfl
      | some ks =>
        simp only [ShamirSecretSharing.parseTestCase]
        by_cases htr : (ShamirSecretSharing.truthyInt ks.n
            && ShamirSecretSharing.truthyInt ks.k) = true
        · rw [if_pos htr, if_pos htr]
          have hfold : (ShamirSecretSharing.idxRange (ks.n.getD 0)).foldlM
              (ShamirSecretSharing.parseStep ⟨some ks, tce⟩) []
              = (ShamirSecretSharing.idxRange (ks.n.getD 0)).foldlM
                (ShamirSecretSharing.parseStep ⟨some ks, tce'⟩) [] := by
            apply parse_fold_congr
            intro i hi
            have hb := mem_idxRange_bounds _ i hi
            exact hag ks rfl i hb.1 hb.2
          rw [hfold]
        · rw [if_neg htr, if_neg htr]
    exact ⟨hparse, solve_congr_of_parse tc tc' hparse⟩

/-- Witness for claim C8: adding a junk entry at key 7 (beyond `n = 4`)
changes neither the parse result nor the solve result of the bundled
example. -/
theorem claim_c8_witness :
    ShamirSecretSharing.parseTestCase exampleTestCase1
      = ShamirSecretSharing.parseTestCase exampleTestCase1Junk7 ∧
    ShamirSecretSharing.solve exampleTestCase1
      = ShamirSecretSharing.solve exampleTestCase1Junk7 :=
  claim_c8_scan_bounds.2 exampleTestCase1 exampleTestCase1Junk7 rfl (by
    intro ks hks i h1 h4
    have hks' : ({ n := some 4, k := some 3 } : ShamirSecretSharing.KeysRec) = ks := by
      injection hks
    rw [← hks'] at h4
    simp only [Option.getD_some] at h4
    interval_cases i <;> rfl)

/-- The failure record that `solve` returns for a malformed test case
(missing or falsy `keys.n` / `keys.k`). -/
def malformedResult : ShamirSecretSharing.SolveResult :=
  { success := false, secret := none, points := none, parameters := none,
    validation := none,
    error := some "Invalid test case format: missing keys.n or keys.k" }

theorem truthy_getD_ne_zero (o : Option ℤ) (h : ShamirSecretSharing.truthyInt o = true) :
    o.getD 0 ≠ 0 := by
  cases o with
  | none => simp [ShamirSecretSharing.truthyInt] at h
  | some v => simpa [ShamirSecretSharing.truthyInt] using h

theorem parse_k_ne_zero (tc : ShamirSecretSharing.TestCase)
    (pts : List (JsNum × JsNum)) (n k : ℤ)
    (h : ShamirSecretSharing.parseTestCase tc = Except.ok (pts, n, k)) :
    k ≠ 0 ∧ n ≠ 0 := by
  unfold ShamirSecretSharing.parseTestCase at h
  split at h
  · exact Except.noConfusion h
  · rename_i ks hk
    split at h
    · rename_i htr
      split at h
      · exact Except.noConfusion h
      · rename_i points hf
        split at h
        · exact Except.noConfusion h
        · injection h with h
          have hkk : ks.k.getD 0 = k := congrArg (fun t => t.2.2) h
          have hnn : ks.n.getD 0 = n := congrArg (fun t => t.2.1) h
          have htn := Bool.and_eq_true_iff.mp htr
          exact ⟨hkk ▸ truthy_getD_ne_zero ks.k htn.2, hnn ▸ truthy_getD_ne_zero ks.n htn.1⟩
    · exact Except.noConfusion h

/-- Claim C10, amended: missing `keys`, `keys.n = 0`, or `keys.k = 0` all
produce the malformed-test-case failure record, and every successful solve
has `k ≠ 0`; however `k` can be negative (see the counterexample), so
`k ≥ 1` does not hold in general. -/
theorem claim_c10_amended :
    (∀ tc : ShamirSecretSharing.TestCase, tc.keys = none →
      ShamirSecretSharing.solve tc = malformedResult) ∧
    (∀ (tc : ShamirSecretSharing.TestCase) ks, tc.keys = some ks →
      (ks.n = some 0 ∨ ks.k = some 0) →
      ShamirSecretSharing.solve tc = malformedResult) ∧
    (∀ (tc : ShamirSecretSharing.TestCase) (p : ShamirSecretSharing.ParamsRec),
      (ShamirSecretSharing.solve tc).success = true →
      (ShamirSecretSharing.solve tc).parameters = some p → p.k ≠ 0) := by
  refine ⟨?_, ?_, ?_⟩
  · intro tc hk
    have hp : ShamirSecretSharing.parseTestCase tc
        = Except.error "Invalid test case format: missing keys.n or keys.k" := by
      unfold ShamirSecretSharing.parseTestCase
      rw [hk]
    unfold ShamirSecretSharing.solve
    rw [hp]
    rfl
  · intro tc ks hk hzero
    have htr : (ShamirSecretSharing.truthyInt ks.n
        && ShamirSecretSharing.truthyInt ks.k) = false := by
      rcases hzero with h0 | h0
      · simp [ShamirSecretSharing.truthyInt, h0]
      · simp [ShamirSecretSharing.truthyInt, h0]
    have hp : ShamirSecretSharing.parseTestCase tc
        = Except.error "Invalid test case format: missing keys.n or keys.k" := by
      unfold ShamirSecretSharing.parseTestCase
      rw [hk]
      simp only [htr]
      rfl
    unfold ShamirSecretSharing.solve
    rw [hp]
    rfl
  · intro tc p hsucc hparam
    cases hp : ShamirSecretSharing.parseTestCase tc with
    | error m =>
      unfold ShamirSecretSharing.solve at hsucc
      rw [hp] at hsucc
      simp at hsucc
    | ok triple =>
      obtain ⟨points, n, k⟩ := triple
      have hk0 := (parse_k_ne_zero tc points n k hp).1
      have hsolve : ShamirSecretSharing.solve tc
          = match ShamirSecretSharing.lagrangeInterpolation points k with
            | Except.error msg =>
              { success := false, secret := none, points := none, parameters := none,
                validation := none, error := some msg }
            | Except.ok secret =>
              { success := true, secret := some secret, points := some points,
                parameters := some { n := n, k := k, degree := k - 1 },
                validation := some (ShamirSecretSharing.validateSolution points secret k),
                error := none } := by
        unfold ShamirSecretSharing.solve
        rw [hp]
      rw [hsolve] at hsucc hparam
      cases hl : ShamirSecretSharing.lagrangeInterpolation points k with
      | error m =>
        rw [hl] at hsucc
        simp at hsucc
      | ok sv =>
        rw [hl] at hparam
        injection hparam with hparam
        rw [← hparam]
        exact hk0

/-- Witness for the amended claim C10: a test case with `keys.k = 0` and
one with no `keys` object both produce the malformed-test-case failure. -/
theorem claim_c10_amended_witness :
    ShamirSecretSharing.solve zeroKCase = malformedResult ∧
    ShamirSecretSharing.solve missingKeysCase = malformedResult :=
  ⟨claim_c10_amended.2.1 zeroKCase { n := some 4, k := some 0 } rfl (Or.inr rfl),
    claim_c10_amended.1 missingKeysCase rfl⟩

theorem numToDouble_ne_nan (i : ℤ) : numToDouble i ≠ JsNum.nan := by
  simp only [numToDouble]
  split <;> intro h <;> exact JsNum.noConfusion h

theorem toInt32_small (b : ℤ) (h0 : 0 ≤ b) (h36 : b ≤ 36) :
    toInt32 (JsNum.fin (b : ℚ)) = b := by
  simp only [toInt32]
  rw [if_neg (not_lt.mpr (by exact_mod_cast h0 : (0 : ℚ) ≤ (b : ℚ))), Int.floor_intCast,
    Int.emod_eq_of_lt h0 (by omega), if_neg (by omega)]

theorem jsParseInt_nan_iff (s : String) (b : ℤ) (h2 : 2 ≤ b) (h36 : b ≤ 36) :
    (jsParseInt s b = JsNum.nan) ↔ noLeadingDigit b s = true := by
  unfold jsParseInt noLeadingDigit
  simp only []
  rw [if_neg (by omega : ¬(b ≠ 0 ∧ (b < 2 ∨ 36 < b)))]
  have hb0 : decide (b = 0) = false := decide_eq_false (by omega)
  rw [hb0, Bool.false_or]
  have hbr : (if b = 0 then (10 : ℤ) else b) = b := if_neg (by omega)
  rw [hbr]
  cases hcs : (if (decide (b = 16)
        && parseIntHexPfx (parseIntSign (s.data.dropWhile isJsWhite))) = true then
      (parseIntSign (s.data.dropWhile isJsWhite)).drop 2
    else parseIntSign (s.data.dropWhile isJsWhite)) with
  | nil =>
    simp
  | cons c rest =>
    rw [List.takeWhile_cons]
    by_cases hpc : parseIntIsDigit (if (decide (b = 16)
        && parseIntHexPfx (parseIntSign (s.data.dropWhile isJsWhite))) = true then (16 : ℤ)
        else b) c = true
    · rw [if_pos hpc]
      constructor
      · intro h
        rw [if_neg (by simp)] at h
        exact absurd h (numToDouble_ne_nan _)
      · intro h
        simp only [hpc] at h
        exact absurd h (by simp)
    · rw [if_neg hpc]
      rw [if_pos rfl]
      simp only [Bool.not_eq_true] at hpc
      simpa using hpc

/-- Claim C3, amended: for a base `b` in `[2, 36]`, `baseToDecimal` reports
an error exactly when, after stripping leading whitespace, one optional
sign, and (for base 16) a `0x` prefix, the value string does not begin with
a valid digit for `b`. Invalid characters after a valid leading digit are
silently truncated, and leading whitespace is silently trimmed (see the
counterexample). -/
theorem claim_c3_amended (b : ℤ) (h2 : 2 ≤ b) (h36 : b ≤ 36) (s : String) :
    (∃ e, ShamirSecretSharing.baseToDecimal s (JsNum.fin (b : ℚ)) = Except.error e)
      ↔ noLeadingDigit b s = true := by
  have hlt2 : (JsNum.fin (b : ℚ)).lt (JsNum.fin 2) = false := by
    simp only [JsNum.lt]
    exact decide_eq_false (not_lt.mpr (by exact_mod_cast h2))
  have hgt : (JsNum.fin 36).lt (JsNum.fin (b : ℚ)) = false := by
    simp only [JsNum.lt]
    exact decide_eq_false (not_lt.mpr (by exact_mod_cast h36))
  unfold ShamirSecretSharing.baseToDecimal
  rw [hlt2, hgt, toInt32_small b (by omega) h36, if_neg (by simp)]
  cases hj : jsParseInt s b with
  | nan =>
    exact iff_of_true ⟨_, rfl⟩ ((jsParseInt_nan_iff s b h2 h36).mp hj)
  | inf sb =>
    refine iff_of_false ?_ ?_
    · rintro ⟨e, he⟩
      exact Except.noConfusion he
    · intro hn
      have hv := (jsParseInt_nan_iff s b h2 h36).mpr hn
      rw [hj] at hv
      exact JsNum.noConfusion hv
  | fin q =>
    refine iff_of_false ?_ ?_
    · rintro ⟨e, he⟩
      exact Except.noConfusion he
    · intro hn
      have hv := (jsParseInt_nan_iff s b h2 h36).mpr hn
      rw [hj] at hv
      exact JsNum.noConfusion hv

/-- Witness for the amended claim C3: `"x2"` has no valid leading digit in
base 10, and `baseToDecimal` indeed reports an error on it. -/
theorem claim_c3_amended_witness :
    (2 : ℤ) ≤ 10 ∧ (10 : ℤ) ≤ 36 ∧
    (∃ e, ShamirSecretSharing.baseToDecimal "x2" (JsNum.fin ((10 : ℤ) : ℚ))
      = Except.error e) :=
  ⟨by norm_num, by norm_num,
    (claim_c3_amended 10 (by norm_num) (by norm_num) "x2").mpr (by with_unfolding_all rfl)⟩
